import Mathlib

/-!
Shallow embedding of `src/ImageSubtract.cc` (LSST `ip_diffim` image subtraction).

Pixel values, variances and matrix entries are modelled over `ℚ` (exact
arithmetic in place of IEEE doubles); IEEE NaN is modelled by `Option ℚ`
where it matters (the post-solve sanity checks).  External collaborators —
Eigen's decompositions, the convolution operator, footprint detection and
growth, the C library square root — are passed in as oracle parameters,
exactly as the specification treats them (black boxes).  Everything that the
file under `src/` itself computes is translated directly from that source.
-/

namespace IpDiffim

/-! ## Normal equation assembly (`PsfMatchingFunctor::apply`, lines 80–246)

`M` is the `(N+1)×(N+1)` dense matrix and `B` the length-`(N+1)` vector of
the normal equations, modelled as total functions on `ℕ` that are only ever
touched at indices below `nParameters = N + 1`. -/

/-- Working state of the normal equations: the dense matrix `M` and the
right-hand side `B` of `PsfMatchingFunctor::apply`. -/
structure NormalEq where
  M : ℕ → ℕ → ℚ
  B : ℕ → ℚ

/-- `M(i, j) += x` — Eigen's in-place accumulation on one matrix entry. -/
def madd (M : ℕ → ℕ → ℚ) (i j : ℕ) (x : ℚ) : ℕ → ℕ → ℚ :=
  fun a b => if a = i ∧ b = j then M a b + x else M a b

/-- `B(i) += x` — in-place accumulation on one vector entry. -/
def vadd (B : ℕ → ℚ) (i : ℕ) (x : ℚ) : ℕ → ℚ :=
  fun a => if a = i then B a + x else B a

/-- `M(i, j) = x` — plain assignment to one matrix entry (used by the
mirroring step, line 244). -/
def massign (M : ℕ → ℕ → ℚ) (i j : ℕ) (x : ℚ) : ℕ → ℕ → ℚ :=
  fun a b => if a = i ∧ b = j then x else M a b

/-- Values of the basis-convolved images at one pixel `p = (col, row)`:
`cs[k] = C_k(p)` in the notation of the source (`cdImagei`/`cdImagej`). -/
def pixVals (cImgs : List (ℤ → ℤ → ℚ)) (p : ℤ × ℤ) : List ℚ :=
  cImgs.map fun f => f p.1 p.2

/-- Value of the `k`-th basis-convolved image at pixel `p` (0 outside the
basis list, which is never reached at in-range indices). -/
def cval (cImgs : List (ℤ → ℤ → ℚ)) (k : ℕ) (p : ℤ × ℤ) : ℚ :=
  (pixVals cImgs p).getD k 0

/-- Inner kernel-index loop of the pixel walk (lines 176–186): for
`kidxj = kidxi, …, N-1` accumulate `M(kidxi, kidxj) += c_i·c_j·v`. -/
def innerLoop (cs : List ℚ) (v ci : ℚ) (i : ℕ) (s : NormalEq) : NormalEq :=
  (List.range' i (cs.length - i)).foldl
    (fun s2 j => { s2 with M := madd s2.M i j (ci * cs.getD j 0 * v) }) s

/-- Body of the outer kernel-index loop (lines 172–192): the inner loop,
then `B(kidxi) += nc·c_i·v` and the background cross term
`M(kidxi, nParameters-1) += c_i·v`. -/
def outerStep (cs : List ℚ) (nc v : ℚ) (s : NormalEq) (i : ℕ) : NormalEq :=
  { M := madd (innerLoop cs v (cs.getD i 0) i s).M i cs.length (cs.getD i 0 * v),
    B := vadd (innerLoop cs v (cs.getD i 0) i s).B i (nc * cs.getD i 0 * v) }

/-- Accumulation done for a single pixel of the valid window (lines
166–196): the two kernel-index loops followed, once per pixel, by
`B(nParameters-1) += nc·v` and `M(nParameters-1, nParameters-1) += 1·v`. -/
def accumPixel (cs : List ℚ) (nc v : ℚ) (s : NormalEq) : NormalEq :=
  { M := madd ((List.range cs.length).foldl (outerStep cs nc v) s).M
           cs.length cs.length (1 * v),
    B := vadd ((List.range cs.length).foldl (outerStep cs nc v) s).B
           cs.length (nc * v) }

/-- Bounds of the valid pixel window (lines 143–146):
`startCol = ctrX`, `startRow = ctrY`,
`endCol = width − (kw − ctrX) + 1`, `endRow = height − (kh − ctrY) + 1`. -/
structure WindowBounds where
  startCol : ℤ
  startRow : ℤ
  endCol : ℤ
  endRow : ℤ

/-- Computation of the valid window bounds from the image size and the
kernel geometry, exactly as in lines 143–146 of the source. -/
def validBounds (width height kw kh cx cy : ℤ) : WindowBounds :=
  { startCol := cx, startRow := cy,
    endCol := width - (kw - cx) + 1, endRow := height - (kh - cy) + 1 }

/-- Row-major enumeration of the valid window (the nested `row`/`col` loops
of lines 164–216): rows outermost, `(col, row)` pixels. -/
def windowPixels (wb : WindowBounds) : List (ℤ × ℤ) :=
  (List.range (wb.endRow - wb.startRow).toNat).flatMap fun (r : ℕ) =>
    (List.range (wb.endCol - wb.startCol).toNat).map fun (c : ℕ) =>
      (wb.startCol + (c : ℤ), wb.startRow + (r : ℤ))

/-- Zero-initialised normal equations
(`Eigen::MatrixXd::Zero` / `Eigen::VectorXd::Zero`, lines 90–91). -/
def initNormalEq : NormalEq :=
  { M := fun _ _ => 0, B := fun _ => 0 }

/-- The full pixel walk: fold `accumPixel` over a pixel list, reading at each
pixel the not-convolved image `nc`, the inverse variance `v = 1/variance`
(line 167) and the basis-convolved values. -/
def applyAccum (cImgs : List (ℤ → ℤ → ℚ)) (ncImg varImg : ℤ → ℤ → ℚ)
    (pix : List (ℤ × ℤ)) : NormalEq :=
  pix.foldl
    (fun s p => accumPixel (pixVals cImgs p) (ncImg p.1 p.2) (1 / varImg p.1 p.2) s)
    initNormalEq

/-- Normal equations as accumulated by the pixel walk over the valid window,
before the mirroring step. -/
def accumulatedNormalEq (width height kw kh cx cy : ℤ)
    (cImgs : List (ℤ → ℤ → ℚ)) (ncImg varImg : ℤ → ℤ → ℚ) : NormalEq :=
  applyAccum cImgs ncImg varImg (windowPixels (validBounds width height kw kh cx cy))

/-- The mirroring step (lines 241–246): for `kidxi < nParameters` and
`kidxj = kidxi+1, …, nParameters-1` assign `M(kidxj, kidxi) = M(kidxi, kidxj)`. -/
def fillLower (nP : ℕ) (M0 : ℕ → ℕ → ℚ) : ℕ → ℕ → ℚ :=
  (List.range nP).foldl
    (fun M kidxi =>
      (List.range' (kidxi + 1) (nP - (kidxi + 1))).foldl
        (fun M2 kidxj => massign M2 kidxj kidxi (M2 kidxi kidxj)) M)
    M0

/-- Normal equations after the pixel walk and the mirroring step, with
`nParameters = basisList.size() + 1`. -/
def psfFitNormalEq (width height kw kh cx cy : ℤ)
    (cImgs : List (ℤ → ℤ → ℚ)) (ncImg varImg : ℤ → ℤ → ℚ) : NormalEq :=
  { M := fillLower (cImgs.length + 1)
           (accumulatedNormalEq width height kw kh cx cy cImgs ncImg varImg).M,
    B := (accumulatedNormalEq width height kw kh cx cy cImgs ncImg varImg).B }

/-- Net contribution of a single pixel to one entry of `M` (closed form used
to state the accumulation lemmas). -/
def pixelDeltaM (cs : List ℚ) (v : ℚ) (a b : ℕ) : ℚ :=
  (if a ≤ b ∧ b < cs.length then cs.getD a 0 * cs.getD b 0 * v else 0)
    + (if a < cs.length ∧ b = cs.length then cs.getD a 0 * v else 0)
    + (if a = cs.length ∧ b = cs.length then 1 * v else 0)

/-- Net contribution of a single pixel to one entry of `B`. -/
def pixelDeltaB (cs : List ℚ) (nc v : ℚ) (a : ℕ) : ℚ :=
  (if a < cs.length then nc * cs.getD a 0 * v else 0)
    + (if a = cs.length then nc * v else 0)

/-! ## Solver cascade (lines 260–291)

The four Eigen decompositions are external collaborators; each of the first
three is modelled by an `Option` solution (`none` = the boolean `solve`
returned `false`), and the `SelfAdjointEigenSolver` by an `Option` pair of
eigenvector matrix and eigenvalue vector (`none` = it raised an internal
exception, the `catch` branch of lines 283–288). -/

/-- Eigenvalue inversion of the pseudo-inverse branch (lines 276–280):
`if (eValues(i) != 0.0) eValues(i) = 1.0/eValues(i)` — zero eigenvalues are
left at zero. -/
def invertEigenvalues {n : ℕ} (ev : Fin n → ℚ) : Fin n → ℚ :=
  fun i => if ev i ≠ 0 then 1 / ev i else ev i

/-- Solution of the eigen-decomposition pseudo-inverse branch (line 282):
`Soln = R * eValues.asDiagonal() * R.transpose() * B`. -/
def eigenPseudoSolve {n : ℕ} (R : Matrix (Fin n) (Fin n) ℚ) (ev : Fin n → ℚ)
    (B : Fin n → ℚ) : Fin n → ℚ :=
  (R * Matrix.diagonal (invertEigenvalues ev) * R.transpose).mulVec B

/-- Fatal message of the last-resort failure (line 287). -/
def cascadeFailMsg : String :=
  "Unable to determine kernel solution in PsfMatchingFunctor::apply"

/-- The solver cascade of lines 260–291: Cholesky LDLᵗ, then Cholesky LLᵗ,
then LU, then the eigen-decomposition pseudo-inverse; a fatal error if the
eigen solver itself raises. -/
def solverCascade {n : ℕ} (ldlt llt lu : Option (Fin n → ℚ))
    (eigen : Option (Matrix (Fin n) (Fin n) ℚ × (Fin n → ℚ)))
    (B : Fin n → ℚ) : Except String (Fin n → ℚ) :=
  match ldlt with
  | some soln => Except.ok soln
  | none =>
    match llt with
    | some soln => Except.ok soln
    | none =>
      match lu with
      | some soln => Except.ok soln
      | none =>
        match eigen with
        | some (R, ev) => Except.ok (eigenPseudoSolve R ev B)
        | none => Except.error cascadeFailMsg

/-! ## Error covariance (lines 310–312)

`Cov = Mᵗ·M`, `L = Cov.llt().matrixL()`, `Error2 = (Lᵗ)⁻¹·L⁻¹`.  The
Cholesky factorisation and the (triangular) matrix inversion are Eigen
black boxes, passed in as oracles `cholL` and `triInv`. -/

/-- The error covariance computation of lines 310–312. -/
def errorCovariance {n : ℕ}
    (cholL triInv : Matrix (Fin n) (Fin n) ℚ → Matrix (Fin n) (Fin n) ℚ)
    (M : Matrix (Fin n) (Fin n) ℚ) : Matrix (Fin n) (Fin n) ℚ :=
  triInv (cholL (M.transpose * M)).transpose * triInv (cholL (M.transpose * M))

/-! ## Sanity checks and result storage (lines 318–358)

A floating-point value is modelled as `Option ℚ`, `none` standing for an
IEEE NaN (the only distinction the checks observe).  The C library `sqrt`
is an external oracle `sqrtFn`. -/

/-- A double that may be NaN (`none` = NaN). -/
abbrev FVal := Option ℚ

/-- Result storage of the functor: `_kernel`, `_kernelError` (as their
coefficient lists — `LinearCombinationKernel` over the fixed basis),
`_background`, `_backgroundError`.  Kernels are `Option` because the shared
pointers start out null (constructor, lines 50–51). -/
structure FitState where
  kernel : Option (List ℚ)
  kernelError : Option (List ℚ)
  background : FVal
  backgroundError : FVal

/-- Message of the NaN-solution check (line 326). -/
def nanSolnMsg (idx : ℕ) : String :=
  "Unable to determine kernel solution " ++ toString idx ++ " (nan)"

/-- Message of the NaN-uncertainty check (line 330). -/
def nanUncMsg (idx : ℕ) : String :=
  "Unable to determine kernel uncertainty " ++ toString idx ++ " (nan)"

/-- Message of the negative-variance check (line 334). -/
def negUncMsg (idx : ℕ) : String :=
  "Unable to determine kernel uncertainty, negative variance " ++ toString idx

/-- Message of the background NaN check (line 348). -/
def bgNanMsg : String :=
  "Unable to determine background uncertainty (nan)"

/-- Message of the background negative-variance check (line 351). -/
def bgNegMsg : String :=
  "Unable to determine background uncertainty, negative variance"

/-- Per-index body of the translation loop (lines 321–342): insanity checks
on `Soln(idx)` and `Error2(idx, idx)`, then
`kValues[idx] = Soln(idx)`, `kErrValues[idx] = sqrt(Error2(idx, idx))`. -/
def checkIdx (soln : ℕ → FVal) (err2 : ℕ → ℕ → FVal) (sqrtFn : ℚ → ℚ)
    (idx : ℕ) : Except String (ℚ × ℚ) :=
  match soln idx with
  | none => Except.error (nanSolnMsg idx)
  | some sVal =>
    match err2 idx idx with
    | none => Except.error (nanUncMsg idx)
    | some eVal =>
      if eVal < 0 then Except.error (negUncMsg idx)
      else Except.ok (sVal, sqrtFn eVal)

/-- The translation loop over the kernel indices `0, …, kCols·kRows − 1`
(lines 321–342): first failing index throws. -/
def checkLoop (soln : ℕ → FVal) (err2 : ℕ → ℕ → FVal) (sqrtFn : ℚ → ℚ) :
    List ℕ → Except String (List (ℚ × ℚ))
  | [] => Except.ok []
  | idx :: rest =>
    match checkIdx soln err2 sqrtFn idx with
    | Except.error msg => Except.error msg
    | Except.ok p =>
      match checkLoop soln err2 sqrtFn rest with
      | Except.error msg => Except.error msg
      | Except.ok ps => Except.ok (p :: ps)

/-- The check-and-store tail of `PsfMatchingFunctor::apply` (lines 318–358),
given the solver output `soln` and the error covariance `err2`: on the
first thrown exception the members mutated so far keep their new values and
the rest keep their prior ones (`st` is the state carried over from before
the call — `reset()` at line 59 is a no-op).  `kN = kCols·kRows` is the
loop bound, `nP = nParameters`.  The second component is the thrown message
(`none` = completed). -/
def packageApply (kN nP : ℕ) (soln : ℕ → FVal) (err2 : ℕ → ℕ → FVal)
    (sqrtFn : ℚ → ℚ) (st : FitState) : FitState × Option String :=
  match checkLoop soln err2 sqrtFn (List.range kN) with
  | Except.error msg => (st, some msg)
  | Except.ok kPairs =>
    let st1 : FitState :=
      { st with kernel := some (kPairs.map Prod.fst),
                kernelError := some (kPairs.map Prod.snd) }
    match err2 (nP - 1) (nP - 1) with
    | none => (st1, some bgNanMsg)
    | some e =>
      if e < 0 then (st1, some bgNegMsg)
      else ({ st1 with background := soln (nP - 1),
                       backgroundError := some (sqrtFn e) }, none)

/-! ## Footprint search (`getCollectionOfFootprintsForPsfMatching`,
lines 573–710)

Detection, footprint growth, sub-image extraction and the mask scans are
external collaborators, passed as oracles over an abstract footprint type
`FP`: `detect t` returns the footprints found at threshold `t` (already
filtered by `fpNpixMin`), `grow fp n iso` grows a footprint by `n` pixels
(`iso = false` selects the fast non-isotropic growth), `extractOk` tells
whether both sub-image extractions succeed, and `bits1`/`bits2` are the OR
of the mask bits of the grown footprint in the two images. -/

/-- Truncation of a rational to an integer, toward zero — the C++ `int(…)`
conversion applied to `fpGrowKsize * max(kCols, kRows)` at line 595. -/
def ratTrunc (q : ℚ) : ℤ :=
  q.num / (q.den : ℤ)

/-- Number of pixels to grow each footprint (line 595):
`int(fpGrowKsize * ((kCols > kRows) ? kCols : kRows))`. -/
def fpGrowPix (fpGrowKsize : ℚ) (kCols kRows : ℤ) : ℤ :=
  ratTrunc (fpGrowKsize * ((if kCols > kRows then kCols else kRows) : ℤ))

/-- Per-footprint body of the search loop (lines 632–696): discard if over
`fpNpixMax`; grow (non-isotropically, line 653); skip on sub-image
extraction failure (lines 664–676); reject on any masked pixel in either
image (lines 679–691); otherwise keep the grown footprint. -/
def processFootprint {FP : Type} (fpNpixMax : ℤ) (npixOf : FP → ℤ)
    (grow : FP → ℤ → Bool → FP) (extractOk : FP → Bool) (bits1 bits2 : FP → ℕ)
    (fpGrowKsize : ℚ) (kCols kRows : ℤ) (fp : FP) : Option FP :=
  if npixOf fp > fpNpixMax then none
  else
    let fpGrow := grow fp (fpGrowPix fpGrowKsize kCols kRows) false
    if extractOk fpGrow = false then none
    else if bits1 fpGrow > 0 then none
    else if bits2 fpGrow > 0 then none
    else some fpGrow

/-- One pass of the search loop at threshold `t` (lines 612–696): candidate
collection is restarted (both lists are cleared, lines 612–613) and every
detected footprint is run through the per-footprint body. -/
def searchPass {FP : Type} (detect : ℚ → List FP) (process : FP → Option FP)
    (t : ℚ) : List FP :=
  (detect t).filterMap process

/-- The threshold-decay while loop (lines 610–699), with explicit fuel
(`none` = the given number of passes did not reach the exit condition —
the C++ loop would still be running).  State: current threshold `t`,
`nCleanFp`, and the output list of the most recent pass. -/
def searchLoopAux {FP : Type} (detect : ℚ → List FP) (process : FP → Option FP)
    (minCleanFp : ℤ) (tMin scal : ℚ) :
    ℕ → ℚ → ℤ → List FP → Option (ℚ × ℤ × List FP)
  | 0, _, _, _ => none
  | fuel + 1, t, nClean, out =>
    if nClean < minCleanFp ∧ tMin < t then
      searchLoopAux detect process minCleanFp tMin scal fuel (t * scal)
        ((searchPass detect process t).length : ℤ) (searchPass detect process t)
    else some (t, nClean, out)

/-- Message of the terminal failure (lines 700–703). -/
def noFootprintsMsg : String :=
  "Unable to find any footprints for Psf matching"

/-- `getCollectionOfFootprintsForPsfMatching` (lines 573–710): run the
threshold-decay loop from `nCleanFp = 0` with empty lists, then throw
exactly when the accumulated output list is empty. -/
def getCollectionOfFootprints {FP : Type} (detect : ℚ → List FP)
    (fpNpixMax : ℤ) (npixOf : FP → ℤ) (grow : FP → ℤ → Bool → FP)
    (extractOk : FP → Bool) (bits1 bits2 : FP → ℕ)
    (fpGrowKsize : ℚ) (kCols kRows : ℤ) (minCleanFp : ℤ)
    (detThreshold detThresholdScaling detThresholdMin : ℚ) (fuel : ℕ) :
    Option (Except String (List FP)) :=
  (searchLoopAux detect
      (processFootprint fpNpixMax npixOf grow extractOk bits1 bits2
        fpGrowKsize kCols kRows)
      minCleanFp detThresholdMin detThresholdScaling fuel detThreshold 0 []).map
    fun r =>
      if r.2.2.length = 0 then Except.error noFootprintsMsg else Except.ok r.2.2

/-! ## Difference assembly (`convolveAndSubtract`, Image template overload,
lines 524–554)

The convolution operator is an external collaborator `conv`. -/

/-- A MaskedImage: image, mask and variance planes. -/
structure MaskedImage where
  img : ℤ → ℤ → ℚ
  msk : ℤ → ℤ → ℕ
  var : ℤ → ℤ → ℚ

/-- Scalar overload of `addSomethingToImage` (lines 459–466): add a scalar
to every pixel, skipping the pass entirely when it is zero. -/
def addSomethingToImage (img : ℤ → ℤ → ℚ) (value : ℚ) : ℤ → ℤ → ℚ :=
  if value ≠ 0 then fun x y => img x y + value else img

/-- The Image-template `convolveAndSubtract` (lines 524–554): convolve the
template with the fitted kernel, add the background, subtract the science
image plane, multiply the image plane by −1 exactly when `invert` is set,
then copy the science mask and variance planes into the result. -/
def convolveAndSubtract (conv : (ℤ → ℤ → ℚ) → (ℤ → ℤ → ℚ))
    (imageToConvolve : ℤ → ℤ → ℚ) (imageToNotConvolve : MaskedImage)
    (background : ℚ) (invert : Bool) : MaskedImage :=
  { img :=
      (fun diffIm => if invert then (fun x y => diffIm x y * (-1)) else diffIm)
        (fun x y =>
          addSomethingToImage (conv imageToConvolve) background x y
            - imageToNotConvolve.img x y),
    msk := imageToNotConvolve.msk,
    var := imageToNotConvolve.var }

/-! ## Concrete instances used by the witnesses -/

/-- A linear-gradient test image. -/
def imgX : ℤ → ℤ → ℚ := fun x _ => (x : ℚ)

/-- A vertical-gradient test image. -/
def imgY : ℤ → ℤ → ℚ := fun _ y => (y : ℚ)

/-- A constant test image (also used as a unit variance plane). -/
def imgOne : ℤ → ℤ → ℚ := fun _ _ => 1

/-- A one-element list of basis-convolved test images. -/
def cImgsW : List (ℤ → ℤ → ℚ) := [imgX]

/-- A concrete 1×1 test matrix. -/
def M1 : Matrix (Fin 1) (Fin 1) ℚ := Matrix.of fun _ _ => 2

/-- A concrete Cholesky-factor oracle for `M1ᵗ·M1 = [[4]]`. -/
def cholW : Matrix (Fin 1) (Fin 1) ℚ → Matrix (Fin 1) (Fin 1) ℚ :=
  fun _ => Matrix.of fun _ _ => 2

/-- A concrete triangular-inversion oracle for 1×1 matrices. -/
def invW : Matrix (Fin 1) (Fin 1) ℚ → Matrix (Fin 1) (Fin 1) ℚ :=
  fun A => Matrix.of fun _ _ => (A 0 0)⁻¹

/-- Solver output in which the background coefficient (index 1) is NaN while
the kernel coefficient (index 0) is clean. -/
def solnNanBg : ℕ → FVal := fun i => if i = 0 then some 0 else none

/-- An error covariance whose entries are all zero (clean). -/
def err2Zero : ℕ → ℕ → FVal := fun _ _ => some 0

/-- A prior functor state. -/
def stPrev : FitState :=
  { kernel := none, kernelError := none, background := some 0, backgroundError := some 0 }

/-- A clean constant solver output. -/
def soln3 : ℕ → FVal := fun _ => some 3

/-- An error covariance whose background diagonal entry is negative. -/
def err2Neg : ℕ → ℕ → FVal := fun i j => if i = 0 ∧ j = 0 then some 0 else some (-1)

/-- A prior functor state with all four results populated. -/
def stW : FitState :=
  { kernel := some [9], kernelError := some [8], background := some 7,
    backgroundError := some 6 }

/-- Concrete footprint pixel-count oracle (footprints are coded as `ℕ`). -/
def npixW : ℕ → ℤ := fun fp => (fp : ℤ)

/-- Concrete growth oracle: add the growth margin to the code. -/
def growW : ℕ → ℤ → Bool → ℕ := fun fp n _ => fp + n.toNat

/-- Concrete extraction oracle: extraction always succeeds. -/
def extractOkW : ℕ → Bool := fun _ => true

/-- Concrete mask-scan oracle: no masked pixels anywhere. -/
def bitsZeroW : ℕ → ℕ := fun _ => 0

/-- Concrete detection oracle: one footprint (coded 2) at any threshold. -/
def detectW : ℚ → List ℕ := fun _ => [2]

/-! ## Generic lemmas on the imperative folds -/

theorem madd_apply (M : ℕ → ℕ → ℚ) (i j a b : ℕ) (x : ℚ) :
    madd M i j x a b = M a b + (if a = i ∧ b = j then x else 0) := by
  unfold madd
  split <;> simp

theorem vadd_apply (B : ℕ → ℚ) (i a : ℕ) (x : ℚ) :
    vadd B i x a = B a + (if a = i then x else 0) := by
  unfold vadd
  split <;> simp

theorem massign_apply (M : ℕ → ℕ → ℚ) (i j a b : ℕ) (x : ℚ) :
    massign M i j x a b = if a = i ∧ b = j then x else M a b := rfl

theorem sum_map_zero {α : Type} (l : List α) : (l.map fun _ => (0 : ℚ)).sum = 0 := by
  induction l with
  | nil => rfl
  | cons x xs ih => simp [ih]

theorem sum_map_add {α : Type} (l : List α) (f g : α → ℚ) :
    (l.map fun x => f x + g x).sum = (l.map f).sum + (l.map g).sum := by
  induction l with
  | nil => simp
  | cons x xs ih => simp [ih]; ring

theorem sum_map_ite_const {α : Type} (l : List α) (P : Prop) [Decidable P]
    (f : α → ℚ) :
    (l.map fun x => if P then f x else 0).sum = if P then (l.map f).sum else 0 := by
  by_cases hP : P <;> simp [hP, sum_map_zero]

theorem foldl_M_add {α : Type} (dM : α → ℕ → ℕ → ℚ) (F : NormalEq → α → NormalEq)
    (a b : ℕ) :
    ∀ (l : List α), (∀ s x, x ∈ l → (F s x).M a b = s.M a b + dM x a b) →
      ∀ s : NormalEq, (l.foldl F s).M a b = s.M a b + (l.map fun x => dM x a b).sum
  | [], _, s => by simp
  | x :: xs, h, s => by
    rw [List.foldl_cons, List.map_cons, List.sum_cons,
      foldl_M_add dM F a b xs (fun s2 y hy => h s2 y (List.mem_cons_of_mem _ hy)) (F s x),
      h s x (List.mem_cons_self x xs)]
    ring

theorem foldl_B_add {α : Type} (dB : α → ℕ → ℚ) (F : NormalEq → α → NormalEq)
    (a : ℕ) :
    ∀ (l : List α), (∀ s x, x ∈ l → (F s x).B a = s.B a + dB x a) →
      ∀ s : NormalEq, (l.foldl F s).B a = s.B a + (l.map fun x => dB x a).sum
  | [], _, s => by simp
  | x :: xs, h, s => by
    rw [List.foldl_cons, List.map_cons, List.sum_cons,
      foldl_B_add dB F a xs (fun s2 y hy => h s2 y (List.mem_cons_of_mem _ hy)) (F s x),
      h s x (List.mem_cons_self x xs)]
    ring

theorem foldl_B_preserve {α : Type} (F : NormalEq → α → NormalEq)
    (h : ∀ s x, (F s x).B = s.B) :
    ∀ (l : List α) (s : NormalEq), (l.foldl F s).B = s.B
  | [], _ => rfl
  | x :: xs, s => by
    rw [List.foldl_cons, foldl_B_preserve F h xs (F s x), h]

theorem sum_range'_single (g : ℕ → ℚ) (b : ℕ) :
    ∀ (n st : ℕ), ((List.range' st n).map fun j => if b = j then g j else 0).sum
      = if st ≤ b ∧ b < st + n then g b else 0
  | 0, st => by
    rw [if_neg (by omega)]
    rfl
  | n + 1, st => by
    rw [List.range'_succ, List.map_cons, List.sum_cons, sum_range'_single g b n (st + 1)]
    by_cases hb : b = st
    · subst hb
      rw [if_pos rfl, if_neg (by omega), if_pos (by omega)]
      ring
    · rw [if_neg hb]
      by_cases hb2 : st + 1 ≤ b ∧ b < st + 1 + n
      · rw [if_pos hb2, if_pos (by omega)]
        ring
      · rw [if_neg hb2, if_neg (by omega)]
        ring

theorem sum_range_match (len a : ℕ) (g : ℕ → ℚ) :
    ((List.range len).map fun i => if a = i then g i else 0).sum
      = if a < len then g a else 0 := by
  rw [List.range_eq_range', sum_range'_single]
  simp

/-! ## Entrywise characterisation of the accumulation -/

theorem innerLoop_M (cs : List ℚ) (v ci : ℚ) (i : ℕ) (s : NormalEq) (a b : ℕ) :
    (innerLoop cs v ci i s).M a b
      = s.M a b
        + (if a = i ∧ i ≤ b ∧ b < i + (cs.length - i) then ci * cs.getD b 0 * v else 0) := by
  unfold innerLoop
  rw [foldl_M_add (fun j a2 b2 => if a2 = i ∧ b2 = j then ci * cs.getD j 0 * v else 0)
    _ a b (List.range' i (cs.length - i)) (fun s2 j _ => by simp [madd_apply]) s]
  congr 1
  simp only [ite_and]
  rw [sum_map_ite_const, sum_range'_single]
  simp only [ite_and]

theorem innerLoop_B (cs : List ℚ) (v ci : ℚ) (i : ℕ) (s : NormalEq) :
    (innerLoop cs v ci i s).B = s.B := by
  unfold innerLoop
  exact foldl_B_preserve
    (fun s2 j => { s2 with M := madd s2.M i j (ci * cs.getD j 0 * v) })
    (fun _ _ => rfl) _ s

theorem outerStep_M (cs : List ℚ) (nc v : ℚ) (s : NormalEq) (i a b : ℕ)
    (hi : i < cs.length) :
    (outerStep cs nc v s i).M a b
      = s.M a b
        + ((if a = i ∧ i ≤ b ∧ b < cs.length then cs.getD i 0 * cs.getD b 0 * v else 0)
            + (if a = i ∧ b = cs.length then cs.getD i 0 * v else 0)) := by
  show madd (innerLoop cs v (cs.getD i 0) i s).M i cs.length (cs.getD i 0 * v) a b = _
  rw [madd_apply, innerLoop_M, show i + (cs.length - i) = cs.length by omega]
  ring

theorem outerStep_B (cs : List ℚ) (nc v : ℚ) (s : NormalEq) (i a : ℕ) :
    (outerStep cs nc v s i).B a
      = s.B a + (if a = i then nc * cs.getD i 0 * v else 0) := by
  show vadd (innerLoop cs v (cs.getD i 0) i s).B i (nc * cs.getD i 0 * v) a = _
  rw [vadd_apply, innerLoop_B]

theorem accumPixel_M (cs : List ℚ) (nc v : ℚ) (s : NormalEq) (a b : ℕ) :
    (accumPixel cs nc v s).M a b = s.M a b + pixelDeltaM cs v a b := by
  show madd ((List.range cs.length).foldl (outerStep cs nc v) s).M
      cs.length cs.length (1 * v) a b = _
  rw [madd_apply,
    foldl_M_add (fun i a2 b2 =>
        (if a2 = i ∧ i ≤ b2 ∧ b2 < cs.length then cs.getD i 0 * cs.getD b2 0 * v else 0)
          + (if a2 = i ∧ b2 = cs.length then cs.getD i 0 * v else 0))
      (outerStep cs nc v) a b (List.range cs.length)
      (fun s2 i hi => outerStep_M cs nc v s2 i a b (List.mem_range.mp hi)) s,
    sum_map_add]
  unfold pixelDeltaM
  simp only [ite_and]
  rw [sum_range_match, sum_range_match]
  split_ifs <;> first | ring1 | (exfalso; omega)

theorem accumPixel_B (cs : List ℚ) (nc v : ℚ) (s : NormalEq) (a : ℕ) :
    (accumPixel cs nc v s).B a = s.B a + pixelDeltaB cs nc v a := by
  show vadd ((List.range cs.length).foldl (outerStep cs nc v) s).B cs.length (nc * v) a = _
  rw [vadd_apply,
    foldl_B_add (fun i a2 => if a2 = i then nc * cs.getD i 0 * v else 0)
      (outerStep cs nc v) a (List.range cs.length)
      (fun s2 i _ => outerStep_B cs nc v s2 i a) s,
    sum_range_match]
  unfold pixelDeltaB
  split_ifs <;> first | ring1 | (exfalso; omega)

theorem applyAccum_M (cImgs : List (ℤ → ℤ → ℚ)) (ncImg varImg : ℤ → ℤ → ℚ)
    (pix : List (ℤ × ℤ)) (a b : ℕ) :
    (applyAccum cImgs ncImg varImg pix).M a b
      = (pix.map fun p => pixelDeltaM (pixVals cImgs p) (1 / varImg p.1 p.2) a b).sum := by
  unfold applyAccum
  rw [foldl_M_add (fun p a2 b2 => pixelDeltaM (pixVals cImgs p) (1 / varImg p.1 p.2) a2 b2)
    _ a b pix (fun s p _ => accumPixel_M _ _ _ s a b) initNormalEq]
  show 0 + _ = _
  rw [zero_add]

theorem applyAccum_B (cImgs : List (ℤ → ℤ → ℚ)) (ncImg varImg : ℤ → ℤ → ℚ)
    (pix : List (ℤ × ℤ)) (a : ℕ) :
    (applyAccum cImgs ncImg varImg pix).B a
      = (pix.map fun p =>
          pixelDeltaB (pixVals cImgs p) (ncImg p.1 p.2) (1 / varImg p.1 p.2) a).sum := by
  unfold applyAccum
  rw [foldl_B_add (fun p a2 =>
        pixelDeltaB (pixVals cImgs p) (ncImg p.1 p.2) (1 / varImg p.1 p.2) a2)
    _ a pix (fun s p _ => accumPixel_B _ _ _ s a) initNormalEq]
  show 0 + _ = _
  rw [zero_add]

/-! ## The mirroring step -/

theorem inner_fill (i : ℕ) :
    ∀ (js : List ℕ), (∀ j ∈ js, i < j) → ∀ (M : ℕ → ℕ → ℚ) (a b : ℕ),
      (js.foldl (fun M2 j => massign M2 j i (M2 i j)) M) a b
        = if b = i ∧ a ∈ js then M i a else M a b
  | [], _, M, a, b => by simp
  | j :: js, h, M, a, b => by
    have hij : i < j := h j (List.mem_cons_self j js)
    rw [List.foldl_cons,
      inner_fill i js (fun j2 hj2 => h j2 (List.mem_cons_of_mem _ hj2))]
    have h1 : massign M j i (M i j) i a = M i a := by
      rw [massign_apply, if_neg]
      rintro ⟨hji, -⟩
      omega
    by_cases hbi : b = i
    · subst hbi
      by_cases haj : a ∈ js
      · rw [if_pos ⟨rfl, haj⟩, h1, if_pos ⟨rfl, List.mem_cons_of_mem _ haj⟩]
      · rw [if_neg (fun hc => haj hc.2), massign_apply]
        by_cases haj2 : a = j
        · rw [if_pos ⟨haj2, rfl⟩,
            if_pos ⟨rfl, by rw [haj2]; exact List.mem_cons_self _ _⟩, haj2]
        · rw [if_neg (fun hc => haj2 hc.1), if_neg]
          rintro ⟨-, hmem⟩
          rcases List.mem_cons.mp hmem with hh | hh
          · exact haj2 hh
          · exact haj hh
    · rw [if_neg (fun hc => hbi hc.1), massign_apply, if_neg (fun hc => hbi hc.2),
        if_neg (fun hc => hbi hc.1)]

theorem outer_fill (nP : ℕ) :
    ∀ (is2 : List ℕ), (∀ i2 ∈ is2, i2 < nP) → ∀ (M : ℕ → ℕ → ℚ) (a b : ℕ),
      (is2.foldl (fun M2 kidxi =>
          (List.range' (kidxi + 1) (nP - (kidxi + 1))).foldl
            (fun M3 kidxj => massign M3 kidxj kidxi (M3 kidxi kidxj)) M2) M) a b
        = if b ∈ is2 ∧ b < a ∧ a < nP then M b a else M a b
  | [], _, M, a, b => by simp
  | i :: is3, h, M, a, b => by
    have hi : i < nP := h i (List.mem_cons_self i is3)
    have hjs : ∀ j ∈ List.range' (i + 1) (nP - (i + 1)), i < j := by
      intro j hj
      have := List.mem_range'_1.mp hj
      omega
    rw [List.foldl_cons, outer_fill nP is3 (fun x hx => h x (List.mem_cons_of_mem _ hx)),
      inner_fill i (List.range' (i + 1) (nP - (i + 1))) hjs M,
      inner_fill i (List.range' (i + 1) (nP - (i + 1))) hjs M]
    by_cases hc1 : b ∈ is3 ∧ b < a ∧ a < nP
    · rw [if_pos hc1, if_neg, if_pos ⟨List.mem_cons_of_mem _ hc1.1, hc1.2⟩]
      rintro ⟨ha2, hb2⟩
      have := List.mem_range'_1.mp hb2
      omega
    · rw [if_neg hc1]
      by_cases hc3 : b = i ∧ a ∈ List.range' (i + 1) (nP - (i + 1))
      · have ha2 := List.mem_range'_1.mp hc3.2
        rw [if_pos hc3, if_pos ⟨by rw [hc3.1]; exact List.mem_cons_self _ _,
          by omega, by omega⟩, hc3.1]
      · rw [if_neg hc3, if_neg]
        rintro ⟨hbor, hba, hanP⟩
        rcases List.mem_cons.mp hbor with hb2 | hb2
        · exact hc3 ⟨hb2, List.mem_range'_1.mpr (by omega)⟩
        · exact hc1 ⟨hb2, hba, hanP⟩

theorem fillLower_char (nP : ℕ) (M : ℕ → ℕ → ℚ) (a b : ℕ) :
    fillLower nP M a b = if b < a ∧ a < nP then M b a else M a b := by
  unfold fillLower
  rw [outer_fill nP (List.range nP) (fun x hx => List.mem_range.mp hx) M a b]
  by_cases hc : b < a ∧ a < nP
  · rw [if_pos ⟨List.mem_range.mpr (by omega), hc⟩, if_pos hc]
  · rw [if_neg (fun hcc => hc hcc.2), if_neg hc]

/-! ## Claims C1–C3 -/

/-- Claim C1: walking the valid pixel window in row-major order, with
`v = 1/variance`, `nc` the not-convolved pixel value and `c_k` the value of
the `k`-th basis-convolved image, the assembled normal equations satisfy
exactly, for all `0 ≤ i ≤ j < N`: `M[i][j] = Σ c_i·c_j·v`,
`B[i] = Σ nc·c_i·v`, `M[i][N] = Σ c_i·v`, and, accumulated once per pixel,
`B[N] = Σ nc·v` and `M[N][N] = Σ v` (sums over the window pixels). -/
theorem C1_normal_equation_assembly (width height kw kh cx cy : ℤ)
    (cImgs : List (ℤ → ℤ → ℚ)) (ncImg varImg : ℤ → ℤ → ℚ) (i j : ℕ)
    (hij : i ≤ j) (hjN : j < cImgs.length) :
    (accumulatedNormalEq width height kw kh cx cy cImgs ncImg varImg).M i j
      = ((windowPixels (validBounds width height kw kh cx cy)).map fun p =>
          cval cImgs i p * cval cImgs j p * (1 / varImg p.1 p.2)).sum
    ∧ (accumulatedNormalEq width height kw kh cx cy cImgs ncImg varImg).B i
      = ((windowPixels (validBounds width height kw kh cx cy)).map fun p =>
          ncImg p.1 p.2 * cval cImgs i p * (1 / varImg p.1 p.2)).sum
    ∧ (accumulatedNormalEq width height kw kh cx cy cImgs ncImg varImg).M i cImgs.length
      = ((windowPixels (validBounds width height kw kh cx cy)).map fun p =>
          cval cImgs i p * (1 / varImg p.1 p.2)).sum
    ∧ (accumulatedNormalEq width height kw kh cx cy cImgs ncImg varImg).B cImgs.length
      = ((windowPixels (validBounds width height kw kh cx cy)).map fun p =>
          ncImg p.1 p.2 * (1 / varImg p.1 p.2)).sum
    ∧ (accumulatedNormalEq width height kw kh cx cy cImgs ncImg varImg).M
        cImgs.length cImgs.length
      = ((windowPixels (validBounds width height kw kh cx cy)).map fun p =>
          1 / varImg p.1 p.2).sum := by
  have hlen : ∀ p : ℤ × ℤ, (pixVals cImgs p).length = cImgs.length := by
    intro p
    simp [pixVals]
  refine ⟨?_, ?_, ?_, ?_, ?_⟩
  · rw [show (accumulatedNormalEq width height kw kh cx cy cImgs ncImg varImg).M i j
        = (applyAccum cImgs ncImg varImg
            (windowPixels (validBounds width height kw kh cx cy))).M i j from rfl,
      applyAccum_M]
    congr 1
    refine List.map_congr_left fun p _ => ?_
    unfold pixelDeltaM
    rw [hlen p, if_pos ⟨hij, hjN⟩, if_neg (by omega), if_neg (by omega)]
    simp only [cval]
    ring
  · rw [show (accumulatedNormalEq width height kw kh cx cy cImgs ncImg varImg).B i
        = (applyAccum cImgs ncImg varImg
            (windowPixels (validBounds width height kw kh cx cy))).B i from rfl,
      applyAccum_B]
    congr 1
    refine List.map_congr_left fun p _ => ?_
    unfold pixelDeltaB
    rw [hlen p, if_pos (by omega), if_neg (by omega)]
    simp only [cval]
    ring
  · rw [show (accumulatedNormalEq width height kw kh cx cy cImgs ncImg varImg).M i cImgs.length
        = (applyAccum cImgs ncImg varImg
            (windowPixels (validBounds width height kw kh cx cy))).M i cImgs.length from rfl,
      applyAccum_M]
    congr 1
    refine List.map_congr_left fun p _ => ?_
    unfold pixelDeltaM
    rw [hlen p, if_neg (by omega), if_pos ⟨by omega, rfl⟩, if_neg (by omega)]
    simp only [cval]
    ring
  · rw [show (accumulatedNormalEq width height kw kh cx cy cImgs ncImg varImg).B cImgs.length
        = (applyAccum cImgs ncImg varImg
            (windowPixels (validBounds width height kw kh cx cy))).B cImgs.length from rfl,
      applyAccum_B]
    congr 1
    refine List.map_congr_left fun p _ => ?_
    unfold pixelDeltaB
    rw [hlen p, if_neg (by omega), if_pos rfl]
    ring
  · rw [show (accumulatedNormalEq width height kw kh cx cy cImgs ncImg varImg).M
          cImgs.length cImgs.length
        = (applyAccum cImgs ncImg varImg
            (windowPixels (validBounds width height kw kh cx cy))).M
            cImgs.length cImgs.length from rfl,
      applyAccum_M]
    congr 1
    refine List.map_congr_left fun p _ => ?_
    unfold pixelDeltaM
    rw [hlen p, if_neg (by omega), if_neg (by omega), if_pos ⟨rfl, rfl⟩]
    ring

/-- Witness for C1 at a concrete instance: a 3×2 image, a single 1×1 basis
kernel anchored at the origin, gradient images and unit variance. -/
theorem C1_normal_equation_assembly_witness :
    (0 : ℕ) ≤ 0 ∧ 0 < cImgsW.length ∧
    ((accumulatedNormalEq 3 2 1 1 0 0 cImgsW imgY imgOne).M 0 0
        = ((windowPixels (validBounds 3 2 1 1 0 0)).map fun p =>
            cval cImgsW 0 p * cval cImgsW 0 p * (1 / imgOne p.1 p.2)).sum
      ∧ (accumulatedNormalEq 3 2 1 1 0 0 cImgsW imgY imgOne).B 0
        = ((windowPixels (validBounds 3 2 1 1 0 0)).map fun p =>
            imgY p.1 p.2 * cval cImgsW 0 p * (1 / imgOne p.1 p.2)).sum
      ∧ (accumulatedNormalEq 3 2 1 1 0 0 cImgsW imgY imgOne).M 0 cImgsW.length
        = ((windowPixels (validBounds 3 2 1 1 0 0)).map fun p =>
            cval cImgsW 0 p * (1 / imgOne p.1 p.2)).sum
      ∧ (accumulatedNormalEq 3 2 1 1 0 0 cImgsW imgY imgOne).B cImgsW.length
        = ((windowPixels (validBounds 3 2 1 1 0 0)).map fun p =>
            imgY p.1 p.2 * (1 / imgOne p.1 p.2)).sum
      ∧ (accumulatedNormalEq 3 2 1 1 0 0 cImgsW imgY imgOne).M cImgsW.length cImgsW.length
        = ((windowPixels (validBounds 3 2 1 1 0 0)).map fun p =>
            1 / imgOne p.1 p.2).sum) :=
  ⟨by decide, by decide,
    C1_normal_equation_assembly 3 2 1 1 0 0 cImgsW imgY imgOne 0 0 (by decide) (by decide)⟩

/-- Claim C2: after the mirroring step that follows the pixel walk, the
assembled `(N+1)×(N+1)` matrix `M` is exactly symmetric:
`M[i][j] = M[j][i]` for all `i, j` below `N+1`, before any solver runs. -/
theorem C2_mirrored_matrix_symmetric (width height kw kh cx cy : ℤ)
    (cImgs : List (ℤ → ℤ → ℚ)) (ncImg varImg : ℤ → ℤ → ℚ) (a b : ℕ)
    (ha : a < cImgs.length + 1) (hb : b < cImgs.length + 1) :
    (psfFitNormalEq width height kw kh cx cy cImgs ncImg varImg).M a b
      = (psfFitNormalEq width height kw kh cx cy cImgs ncImg varImg).M b a := by
  show fillLower _ _ a b = fillLower _ _ b a
  rw [fillLower_char, fillLower_char]
  rcases lt_trichotomy a b with h | h | h
  · rw [if_neg (by omega), if_pos ⟨h, hb⟩]
  · rw [if_neg (by omega), if_neg (by omega), h]
  · rw [if_pos ⟨h, ha⟩, if_neg (by omega)]

/-- Witness for C2 at a concrete instance (indices 0 and 1 of a 2×2 system). -/
theorem C2_mirrored_matrix_symmetric_witness :
    0 < cImgsW.length + 1 ∧ 1 < cImgsW.length + 1 ∧
    (psfFitNormalEq 3 2 1 1 0 0 cImgsW imgY imgOne).M 0 1
      = (psfFitNormalEq 3 2 1 1 0 0 cImgsW imgY imgOne).M 1 0 :=
  ⟨by decide, by decide,
    C2_mirrored_matrix_symmetric 3 2 1 1 0 0 cImgsW imgY imgOne 0 1 (by decide) (by decide)⟩

/-- Claim C3: the pixel walk covers exactly the window whose columns run
from `cx` (inclusive) to `width − (kw − cx) + 1` (exclusive) and whose rows
run from `cy` (inclusive) to `height − (kh − cy) + 1` (exclusive); the
accumulation (`applyAccum`) ranges over precisely this pixel list, so no
pixel outside it contributes to `M` or `B`. -/
theorem C3_valid_window (width height kw kh cx cy c r : ℤ) :
    ((c, r) ∈ windowPixels (validBounds width height kw kh cx cy)) ↔
      (cx ≤ c ∧ c < width - (kw - cx) + 1 ∧ cy ≤ r ∧ r < height - (kh - cy) + 1) := by
  constructor
  · intro hmem
    unfold windowPixels validBounds at hmem
    dsimp only at hmem
    rcases List.mem_flatMap.mp hmem with ⟨rr, hrr, hin⟩
    rcases List.mem_map.mp hin with ⟨cc, hcc, heq⟩
    rw [List.mem_range] at hrr hcc
    rw [Prod.mk.injEq] at heq
    obtain ⟨h1, h2⟩ := heq
    refine ⟨by omega, by omega, by omega, by omega⟩
  · rintro ⟨h1, h2, h3, h4⟩
    unfold windowPixels validBounds
    dsimp only
    refine List.mem_flatMap.mpr ⟨(r - cy).toNat, List.mem_range.mpr (by omega), ?_⟩
    refine List.mem_map.mpr ⟨(c - cx).toNat, List.mem_range.mpr (by omega), ?_⟩
    rw [Prod.mk.injEq]
    constructor <;> omega

/-- Witness for C3 at a concrete instance. -/
theorem C3_valid_window_witness :
    ((0, 0) ∈ windowPixels (validBounds 3 2 1 1 0 0)) ↔
      ((0 : ℤ) ≤ 0 ∧ (0 : ℤ) < 3 - (1 - 0) + 1 ∧ (0 : ℤ) ≤ 0 ∧ (0 : ℤ) < 2 - (1 - 0) + 1) :=
  C3_valid_window 3 2 1 1 0 0 0 0

/-! ## Claims C4 and C5 -/

/-- Claim C4: the solver attempts, in this order and each stage only if the
previous one fails: Cholesky LDLᵗ, Cholesky LLᵗ, LU, then an
eigen-decomposition pseudo-inverse in which zero eigenvalues are left at
zero and every nonzero eigenvalue is inverted, giving `V·diag(1/λ)·Vᵗ·B`;
if the eigen-decomposition stage itself raises, the fit fails with a fatal
descriptive error and there is no further fallback. -/
theorem C4_solver_cascade {n : ℕ} (soln : Fin n → ℚ) (llt lu : Option (Fin n → ℚ))
    (eigen : Option (Matrix (Fin n) (Fin n) ℚ × (Fin n → ℚ)))
    (R : Matrix (Fin n) (Fin n) ℚ) (ev : Fin n → ℚ) (B : Fin n → ℚ) :
    solverCascade (some soln) llt lu eigen B = Except.ok soln
    ∧ solverCascade none (some soln) lu eigen B = Except.ok soln
    ∧ solverCascade none none (some soln) eigen B = Except.ok soln
    ∧ solverCascade none none none (some (R, ev)) B
        = Except.ok ((R * Matrix.diagonal (fun i => if ev i = 0 then 0 else 1 / ev i)
            * R.transpose).mulVec B)
    ∧ solverCascade none none none none B = Except.error cascadeFailMsg := by
  have hev : invertEigenvalues ev = fun i => if ev i = 0 then 0 else 1 / ev i := by
    funext i
    unfold invertEigenvalues
    by_cases h : ev i = 0 <;> simp [h]
  refine ⟨rfl, rfl, rfl, ?_, rfl⟩
  show Except.ok (eigenPseudoSolve R ev B) = _
  unfold eigenPseudoSolve
  rw [hev]

/-- Claim C5: the error covariance is computed as `Cov = Mᵗ·M`,
`L = chol(Cov)` (lower factor), `ErrorCovariance = (Lᵗ)⁻¹·L⁻¹` — so whenever
the factor and the inversions are genuine, `ErrorCovariance` is a left
inverse of `Mᵗ·M` and hence not the direct inverse of `M`; the
per-parameter uncertainty stored for index `idx` is the square root of the
diagonal entry (`checkIdx` stores `sqrtFn` of `Error2(idx, idx)`). -/
theorem C5_error_covariance {n : ℕ}
    (cholL triInv : Matrix (Fin n) (Fin n) ℚ → Matrix (Fin n) (Fin n) ℚ)
    (M : Matrix (Fin n) (Fin n) ℚ)
    (hfact : cholL (M.transpose * M) * (cholL (M.transpose * M)).transpose
        = M.transpose * M)
    (hinvL : triInv (cholL (M.transpose * M)) * cholL (M.transpose * M) = 1)
    (hinvLT : triInv ((cholL (M.transpose * M)).transpose)
        * (cholL (M.transpose * M)).transpose = 1) :
    errorCovariance cholL triInv M
      = triInv ((cholL (M.transpose * M)).transpose) * triInv (cholL (M.transpose * M))
    ∧ errorCovariance cholL triInv M * (M.transpose * M) = 1
    ∧ (∀ (soln : ℕ → FVal) (err2 : ℕ → ℕ → FVal) (sqrtFn : ℚ → ℚ) (idx : ℕ) (s e : ℚ),
        soln idx = some s → err2 idx idx = some e → ¬ e < 0 →
          checkIdx soln err2 sqrtFn idx = Except.ok (s, sqrtFn e)) := by
  refine ⟨rfl, ?_, ?_⟩
  · have key : ∀ L A C : Matrix (Fin n) (Fin n) ℚ, A * L = 1 → C * L.transpose = 1 →
        (C * A) * (L * L.transpose) = 1 := by
      intro L A C hA hC
      calc (C * A) * (L * L.transpose) = C * (A * L) * L.transpose := by noncomm_ring
        _ = 1 := by rw [hA, mul_one, hC]
    have hmain := key (cholL (M.transpose * M)) (triInv (cholL (M.transpose * M)))
      (triInv ((cholL (M.transpose * M)).transpose)) hinvL hinvLT
    rw [hfact] at hmain
    exact hmain
  · intro soln err2 sqrtFn idx s e hs he hneg
    unfold checkIdx
    rw [hs, he]
    simp [hneg]

/-- Witness for C5: `n = 1`, `M = [[2]]`, `Cov = [[4]]`, factor `[[2]]`, the
inversion oracle taking reciprocals. -/
theorem C5_error_covariance_witness :
    (cholW (M1.transpose * M1) * (cholW (M1.transpose * M1)).transpose
        = M1.transpose * M1)
    ∧ (invW (cholW (M1.transpose * M1)) * cholW (M1.transpose * M1) = 1)
    ∧ (invW ((cholW (M1.transpose * M1)).transpose)
        * (cholW (M1.transpose * M1)).transpose = 1)
    ∧ (errorCovariance cholW invW M1
        = invW ((cholW (M1.transpose * M1)).transpose) * invW (cholW (M1.transpose * M1))
      ∧ errorCovariance cholW invW M1 * (M1.transpose * M1) = 1
      ∧ (∀ (soln : ℕ → FVal) (err2 : ℕ → ℕ → FVal) (sqrtFn : ℚ → ℚ) (idx : ℕ) (s e : ℚ),
          soln idx = some s → err2 idx idx = some e → ¬ e < 0 →
            checkIdx soln err2 sqrtFn idx = Except.ok (s, sqrtFn e))) := by
  have h1 : cholW (M1.transpose * M1) * (cholW (M1.transpose * M1)).transpose
      = M1.transpose * M1 := by
    ext i j
    fin_cases i
    fin_cases j
    simp [cholW, M1, Matrix.mul_apply]
  have h2 : invW (cholW (M1.transpose * M1)) * cholW (M1.transpose * M1) = 1 := by
    ext i j
    fin_cases i
    fin_cases j
    simp [cholW, invW, M1, Matrix.mul_apply, Matrix.one_apply]
  have h3 : invW ((cholW (M1.transpose * M1)).transpose)
      * (cholW (M1.transpose * M1)).transpose = 1 := by
    ext i j
    fin_cases i
    fin_cases j
    simp [cholW, invW, M1, Matrix.mul_apply, Matrix.one_apply]
  exact ⟨h1, h2, h3, C5_error_covariance cholW invW M1 h1 h2 h3⟩

/-! ## Behaviour of the check-and-store tail (claims C6 and C10) -/

theorem checkIdx_ok_iff (soln : ℕ → FVal) (err2 : ℕ → ℕ → FVal) (sqrtFn : ℚ → ℚ)
    (idx : ℕ) :
    (∃ p, checkIdx soln err2 sqrtFn idx = Except.ok p)
      ↔ (soln idx ≠ none ∧ ∃ e, err2 idx idx = some e ∧ 0 ≤ e) := by
  unfold checkIdx
  cases hs : soln idx with
  | none => simp
  | some sVal =>
    cases he : err2 idx idx with
    | none => simp
    | some eVal =>
      by_cases hneg : eVal < 0
      · simp [hneg, not_le.mpr hneg]
      · simp [hneg, not_lt.mp hneg]

theorem checkLoop_ok_iff (soln : ℕ → FVal) (err2 : ℕ → ℕ → FVal) (sqrtFn : ℚ → ℚ) :
    ∀ l : List ℕ, (∃ ps, checkLoop soln err2 sqrtFn l = Except.ok ps)
      ↔ (∀ idx ∈ l, soln idx ≠ none ∧ ∃ e, err2 idx idx = some e ∧ 0 ≤ e)
  | [] => by simp [checkLoop]
  | idx :: rest => by
    constructor
    · rintro ⟨ps, hps⟩
      unfold checkLoop at hps
      cases hidx : checkIdx soln err2 sqrtFn idx with
      | error msg =>
        rw [hidx] at hps
        exact absurd hps (by simp)
      | ok p =>
        rw [hidx] at hps
        cases hrest : checkLoop soln err2 sqrtFn rest with
        | error msg =>
          rw [hrest] at hps
          exact absurd hps (by simp)
        | ok ps2 =>
          intro i hi
          rcases List.mem_cons.mp hi with rfl | hi2
          · exact (checkIdx_ok_iff soln err2 sqrtFn i).mp ⟨p, hidx⟩
          · exact ((checkLoop_ok_iff soln err2 sqrtFn rest).mp ⟨ps2, hrest⟩) i hi2
    · intro h
      obtain ⟨p, hp⟩ := (checkIdx_ok_iff soln err2 sqrtFn idx).mpr
        (h idx (List.mem_cons_self idx rest))
      obtain ⟨ps2, hps2⟩ := (checkLoop_ok_iff soln err2 sqrtFn rest).mpr
        (fun i hi => h i (List.mem_cons_of_mem _ hi))
      refine ⟨p :: ps2, ?_⟩
      unfold checkLoop
      rw [hp, hps2]

theorem packageApply_error_loop (kN nP : ℕ) (soln : ℕ → FVal) (err2 : ℕ → ℕ → FVal)
    (sqrtFn : ℚ → ℚ) (st : FitState) (msg : String)
    (h : checkLoop soln err2 sqrtFn (List.range kN) = Except.error msg) :
    packageApply kN nP soln err2 sqrtFn st = (st, some msg) := by
  unfold packageApply
  rw [h]

theorem packageApply_bgNan (kN nP : ℕ) (soln : ℕ → FVal) (err2 : ℕ → ℕ → FVal)
    (sqrtFn : ℚ → ℚ) (st : FitState) (kPairs : List (ℚ × ℚ))
    (h : checkLoop soln err2 sqrtFn (List.range kN) = Except.ok kPairs)
    (hbg : err2 (nP - 1) (nP - 1) = none) :
    (packageApply kN nP soln err2 sqrtFn st).1.kernel = some (kPairs.map Prod.fst)
    ∧ (packageApply kN nP soln err2 sqrtFn st).1.kernelError = some (kPairs.map Prod.snd)
    ∧ (packageApply kN nP soln err2 sqrtFn st).1.background = st.background
    ∧ (packageApply kN nP soln err2 sqrtFn st).1.backgroundError = st.backgroundError
    ∧ (packageApply kN nP soln err2 sqrtFn st).2 = some bgNanMsg := by
  unfold packageApply
  rw [h, hbg]
  simp

theorem packageApply_bgNeg (kN nP : ℕ) (soln : ℕ → FVal) (err2 : ℕ → ℕ → FVal)
    (sqrtFn : ℚ → ℚ) (st : FitState) (kPairs : List (ℚ × ℚ)) (e : ℚ)
    (h : checkLoop soln err2 sqrtFn (List.range kN) = Except.ok kPairs)
    (hbg : err2 (nP - 1) (nP - 1) = some e) (hneg : e < 0) :
    (packageApply kN nP soln err2 sqrtFn st).1.kernel = some (kPairs.map Prod.fst)
    ∧ (packageApply kN nP soln err2 sqrtFn st).1.kernelError = some (kPairs.map Prod.snd)
    ∧ (packageApply kN nP soln err2 sqrtFn st).1.background = st.background
    ∧ (packageApply kN nP soln err2 sqrtFn st).1.backgroundError = st.backgroundError
    ∧ (packageApply kN nP soln err2 sqrtFn st).2 = some bgNegMsg := by
  unfold packageApply
  rw [h, hbg]
  simp [hneg]

theorem packageApply_success (kN nP : ℕ) (soln : ℕ → FVal) (err2 : ℕ → ℕ → FVal)
    (sqrtFn : ℚ → ℚ) (st : FitState) (kPairs : List (ℚ × ℚ)) (e : ℚ)
    (h : checkLoop soln err2 sqrtFn (List.range kN) = Except.ok kPairs)
    (hbg : err2 (nP - 1) (nP - 1) = some e) (hneg : ¬ e < 0) :
    (packageApply kN nP soln err2 sqrtFn st).1.kernel = some (kPairs.map Prod.fst)
    ∧ (packageApply kN nP soln err2 sqrtFn st).1.kernelError = some (kPairs.map Prod.snd)
    ∧ (packageApply kN nP soln err2 sqrtFn st).1.background = soln (nP - 1)
    ∧ (packageApply kN nP soln err2 sqrtFn st).1.backgroundError = some (sqrtFn e)
    ∧ (packageApply kN nP soln err2 sqrtFn st).2 = none := by
  unfold packageApply
  rw [h, hbg]
  simp [hneg]

/-! ## Claims C6 and C10 -/

/-- Claim C6 (amended): the fit raises a failure iff a kernel-indexed
solution coefficient (index `< kCols·kRows`) is NaN, or any diagonal
uncertainty entry (all `nParameters` of them, the background's included) is
NaN or negative; the background solution coefficient `Soln(nParameters-1)`
is never NaN-checked.  Conversely, when no check fails the fit completes and
stores kernel, kernel uncertainty, background and background error. -/
theorem C6_fit_rejection (kN : ℕ) (soln : ℕ → FVal) (err2 : ℕ → ℕ → FVal)
    (sqrtFn : ℚ → ℚ) (st : FitState) :
    ((packageApply kN (kN + 1) soln err2 sqrtFn st).2 = none ↔
      ((∀ idx, idx < kN → soln idx ≠ none)
        ∧ (∀ idx, idx < kN + 1 → ∃ e, err2 idx idx = some e ∧ 0 ≤ e)))
    ∧ ((packageApply kN (kN + 1) soln err2 sqrtFn st).2 = none →
        ((packageApply kN (kN + 1) soln err2 sqrtFn st).1.kernel.isSome = true
          ∧ (packageApply kN (kN + 1) soln err2 sqrtFn st).1.kernelError.isSome = true
          ∧ (packageApply kN (kN + 1) soln err2 sqrtFn st).1.background = soln kN
          ∧ (packageApply kN (kN + 1) soln err2 sqrtFn st).1.backgroundError.isSome
              = true)) := by
  have hsub : kN + 1 - 1 = kN := rfl
  cases hCL : checkLoop soln err2 sqrtFn (List.range kN) with
  | error msg =>
    have hpa := packageApply_error_loop kN (kN + 1) soln err2 sqrtFn st msg hCL
    rw [hpa]
    constructor
    · constructor
      · intro hcontra
        exact absurd hcontra (by simp)
      · rintro ⟨h1, h2⟩
        exfalso
        obtain ⟨ps, hps⟩ := (checkLoop_ok_iff soln err2 sqrtFn (List.range kN)).mpr
          (fun idx hidx => ⟨h1 idx (List.mem_range.mp hidx),
            h2 idx (by have := List.mem_range.mp hidx; omega)⟩)
        rw [hCL] at hps
        exact absurd hps (by simp)
    · intro hcontra
      exact absurd hcontra (by simp)
  | ok kPairs =>
    cases hbg : err2 kN kN with
    | none =>
      obtain ⟨hk, hke, hb, hbe, hmsg⟩ :=
        packageApply_bgNan kN (kN + 1) soln err2 sqrtFn st kPairs hCL (hsub ▸ hbg)
      rw [hmsg]
      constructor
      · constructor
        · intro hcontra
          exact absurd hcontra (by simp)
        · rintro ⟨h1, h2⟩
          obtain ⟨e, he, -⟩ := h2 kN (by omega)
          rw [hbg] at he
          exact absurd he (by simp)
      · intro hcontra
        exact absurd hcontra (by simp)
    | some e =>
      by_cases hneg : e < 0
      · obtain ⟨hk, hke, hb, hbe, hmsg⟩ :=
          packageApply_bgNeg kN (kN + 1) soln err2 sqrtFn st kPairs e hCL (hsub ▸ hbg) hneg
        rw [hmsg]
        constructor
        · constructor
          · intro hcontra
            exact absurd hcontra (by simp)
          · rintro ⟨h1, h2⟩
            obtain ⟨e2, he2, he2pos⟩ := h2 kN (by omega)
            rw [hbg] at he2
            have hee : e = e2 := Option.some_injective ℚ he2
            exfalso
            rw [hee] at hneg
            exact absurd he2pos (not_le.mpr hneg)
        · intro hcontra
          exact absurd hcontra (by simp)
      · obtain ⟨hk, hke, hb, hbe, hmsg⟩ :=
          packageApply_success kN (kN + 1) soln err2 sqrtFn st kPairs e hCL (hsub ▸ hbg) hneg
        constructor
        · rw [hmsg]
          constructor
          · intro _
            refine ⟨?_, ?_⟩
            · intro idx hidx
              exact (((checkLoop_ok_iff soln err2 sqrtFn (List.range kN)).mp
                ⟨kPairs, hCL⟩) idx (List.mem_range.mpr hidx)).1
            · intro idx hidx
              rcases Nat.lt_succ_iff_lt_or_eq.mp hidx with hlt | rfl
              · exact (((checkLoop_ok_iff soln err2 sqrtFn (List.range kN)).mp
                  ⟨kPairs, hCL⟩) idx (List.mem_range.mpr hlt)).2
              · exact ⟨e, hbg, not_lt.mp hneg⟩
          · intro _
            rfl
        · intro _
          refine ⟨?_, ?_, ?_, ?_⟩
          · rw [hk]
            rfl
          · rw [hke]
            rfl
          · rw [hb, hsub]
          · rw [hbe]
            rfl

/-- Counterexample to C6 as stated: `kCols·kRows = 1`, `nParameters = 2`,
the solver returned a NaN background coefficient (`Soln(1)` is NaN, a
solution coefficient), every checked quantity is clean — yet the fit
completes without raising and stores the NaN as the background. -/
theorem C6_counterexample :
    solnNanBg 1 = none
    ∧ (packageApply 1 2 solnNanBg err2Zero (fun q => q) stPrev).2 = none
    ∧ (packageApply 1 2 solnNanBg err2Zero (fun q => q) stPrev).1.background = none := by
  have h1 : checkLoop solnNanBg err2Zero (fun q => q) (List.range 1)
      = Except.ok [(0, 0)] := by
    have hr : List.range 1 = [0] := by decide
    rw [hr]
    unfold checkLoop checkIdx
    norm_num [solnNanBg, err2Zero]
    rfl
  obtain ⟨-, -, hb, -, hmsg⟩ :=
    packageApply_success 1 2 solnNanBg err2Zero (fun q => q) stPrev [(0, 0)] 0 h1 rfl
      (by norm_num)
  exact ⟨rfl, hmsg, by rw [hb]; rfl⟩

/-- Witness for the C6 theorem at a concrete clean instance. -/
theorem C6_fit_rejection_witness :
    (((packageApply 1 (1 + 1) soln3 err2Zero (fun q => q) stPrev).2 = none ↔
      ((∀ idx, idx < 1 → soln3 idx ≠ none)
        ∧ (∀ idx, idx < 1 + 1 → ∃ e, err2Zero idx idx = some e ∧ 0 ≤ e)))
    ∧ ((packageApply 1 (1 + 1) soln3 err2Zero (fun q => q) stPrev).2 = none →
        ((packageApply 1 (1 + 1) soln3 err2Zero (fun q => q) stPrev).1.kernel.isSome = true
          ∧ (packageApply 1 (1 + 1) soln3 err2Zero (fun q => q) stPrev).1.kernelError.isSome
              = true
          ∧ (packageApply 1 (1 + 1) soln3 err2Zero (fun q => q) stPrev).1.background
              = soln3 1
          ∧ (packageApply 1 (1 + 1) soln3 err2Zero (fun q => q) stPrev).1.backgroundError.isSome
              = true))) :=
  C6_fit_rejection 1 soln3 err2Zero (fun q => q) stPrev

/-- Claim C10: when the fit fails at a kernel-indexed check, all four stored
results are unchanged; when it fails at the background-uncertainty check,
the stored kernel and kernel uncertainty have already been replaced by the
new fit's values while background and background error retain their prior
values — a failed fit is not atomic in general. -/
theorem C10_failure_not_atomic (kN nP : ℕ) (soln : ℕ → FVal) (err2 : ℕ → ℕ → FVal)
    (sqrtFn : ℚ → ℚ) (st : FitState) :
    (∀ msg, checkLoop soln err2 sqrtFn (List.range kN) = Except.error msg →
      packageApply kN nP soln err2 sqrtFn st = (st, some msg))
    ∧ (∀ kPairs, checkLoop soln err2 sqrtFn (List.range kN) = Except.ok kPairs →
        (err2 (nP - 1) (nP - 1) = none ∨ ∃ e, err2 (nP - 1) (nP - 1) = some e ∧ e < 0) →
        ((packageApply kN nP soln err2 sqrtFn st).1.kernel = some (kPairs.map Prod.fst)
          ∧ (packageApply kN nP soln err2 sqrtFn st).1.kernelError
              = some (kPairs.map Prod.snd)
          ∧ (packageApply kN nP soln err2 sqrtFn st).1.background = st.background
          ∧ (packageApply kN nP soln err2 sqrtFn st).1.backgroundError = st.backgroundError
          ∧ (packageApply kN nP soln err2 sqrtFn st).2 ≠ none)) := by
  constructor
  · intro msg hmsg
    exact packageApply_error_loop kN nP soln err2 sqrtFn st msg hmsg
  · intro kPairs hok hbad
    rcases hbad with hbg | ⟨e, hbg, hneg⟩
    · obtain ⟨hk, hke, hb, hbe, hmsg⟩ :=
        packageApply_bgNan kN nP soln err2 sqrtFn st kPairs hok hbg
      exact ⟨hk, hke, hb, hbe, by rw [hmsg]; simp⟩
    · obtain ⟨hk, hke, hb, hbe, hmsg⟩ :=
        packageApply_bgNeg kN nP soln err2 sqrtFn st kPairs e hok hbg hneg
      exact ⟨hk, hke, hb, hbe, by rw [hmsg]; simp⟩

/-- Witness for C10: concrete failure at the background-uncertainty check,
with kernel/kernelError replaced and background/backgroundError retained. -/
theorem C10_failure_not_atomic_witness :
    (packageApply 1 2 soln3 err2Neg (fun q => q) stW).1.kernel
        = some ([((3 : ℚ), (0 : ℚ))].map Prod.fst)
    ∧ (packageApply 1 2 soln3 err2Neg (fun q => q) stW).1.kernelError
        = some ([((3 : ℚ), (0 : ℚ))].map Prod.snd)
    ∧ (packageApply 1 2 soln3 err2Neg (fun q => q) stW).1.background = stW.background
    ∧ (packageApply 1 2 soln3 err2Neg (fun q => q) stW).1.backgroundError
        = stW.backgroundError
    ∧ (packageApply 1 2 soln3 err2Neg (fun q => q) stW).2 ≠ none := by
  have h1 : checkLoop soln3 err2Neg (fun q => q) (List.range 1)
      = Except.ok [(3, 0)] := by
    have hr : List.range 1 = [0] := by decide
    rw [hr]
    unfold checkLoop checkIdx
    norm_num [soln3, err2Neg]
    rfl
  exact (C10_failure_not_atomic 1 2 soln3 err2Neg (fun q => q) stW).2 [(3, 0)] h1
    (Or.inr ⟨-1, by norm_num [err2Neg], by norm_num⟩)

/-! ## Footprint search (claims C7 and C8) -/

theorem searchLoopAux_exit {FP : Type} (detect : ℚ → List FP) (process : FP → Option FP)
    (minCleanFp : ℤ) (tMin scal : ℚ) :
    ∀ (fuel : ℕ) (t : ℚ) (n : ℤ) (out : List FP) (t2 : ℚ) (n2 : ℤ) (out2 : List FP),
      searchLoopAux detect process minCleanFp tMin scal fuel t n out = some (t2, n2, out2) →
      ¬ (n2 < minCleanFp ∧ tMin < t2)
  | 0, t, n, out, t2, n2, out2 => by
    intro h
    exact absurd h (by simp [searchLoopAux])
  | fuel + 1, t, n, out, t2, n2, out2 => by
    intro h
    unfold searchLoopAux at h
    split_ifs at h with hg
    · exact searchLoopAux_exit detect process minCleanFp tMin scal fuel _ _ _ t2 n2 out2 h
    · simp only [Option.some.injEq, Prod.mk.injEq] at h
      obtain ⟨rfl, rfl, rfl⟩ := h
      exact hg

theorem searchLoopAux_terminates {FP : Type} (detect : ℚ → List FP)
    (process : FP → Option FP) (minCleanFp : ℤ) (tMin scal : ℚ) :
    ∀ (k : ℕ) (t : ℚ) (n : ℤ) (out : List FP), t * scal ^ k ≤ tMin →
      (searchLoopAux detect process minCleanFp tMin scal (k + 1) t n out).isSome = true
  | 0, t, n, out => by
    intro h
    rw [pow_zero, mul_one] at h
    unfold searchLoopAux
    rw [if_neg]
    · rfl
    · rintro ⟨-, hlt⟩
      exact absurd hlt (not_lt.mpr h)
  | k + 1, t, n, out => by
    intro h
    unfold searchLoopAux
    split_ifs with hg
    · exact searchLoopAux_terminates detect process minCleanFp tMin scal k _ _ _
        (by calc (t * scal) * scal ^ k = t * scal ^ (k + 1) := by ring
          _ ≤ tMin := h)
    · rfl

theorem searchLoopAux_exists_fuel {FP : Type} (detect : ℚ → List FP)
    (process : FP → Option FP) (minCleanFp : ℤ) (tMin scal : ℚ)
    (h1 : 0 < scal) (h2 : scal < 1) (h3 : 0 < tMin) (t : ℚ) (n : ℤ) (out : List FP) :
    ∃ fuel, (searchLoopAux detect process minCleanFp tMin scal fuel t n out).isSome
      = true := by
  by_cases ht : t ≤ tMin
  · exact ⟨1, searchLoopAux_terminates detect process minCleanFp tMin scal 0 t n out
      (by rw [pow_zero, mul_one]; exact ht)⟩
  · push_neg at ht
    have htpos : 0 < t := lt_trans h3 ht
    obtain ⟨k, hk⟩ := exists_pow_lt_of_lt_one (div_pos h3 htpos) h2
    refine ⟨k + 1, searchLoopAux_terminates detect process minCleanFp tMin scal k t n out ?_⟩
    have h4 : scal ^ k * t < tMin := (lt_div_iff htpos).mp hk
    rw [mul_comm]
    exact le_of_lt h4

/-- Claim C8: each detected region is discarded iff its pixel count exceeds
`fpNpixMax`; otherwise it is grown by exactly
`int(fpGrowKsize · max(kernelCols, kernelRows))` pixels with non-isotropic
growth (the `false` flag); an extraction failure skips it without error; a
grown region with any masked pixel in either image is rejected; a region
passing every check is retained as the grown (not the original)
footprint. -/
theorem C8_footprint_processing {FP : Type} (fpNpixMax : ℤ) (npixOf : FP → ℤ)
    (grow : FP → ℤ → Bool → FP) (extractOk : FP → Bool) (bits1 bits2 : FP → ℕ)
    (fpGrowKsize : ℚ) (kCols kRows : ℤ) (fp g : FP) :
    (processFootprint fpNpixMax npixOf grow extractOk bits1 bits2 fpGrowKsize kCols kRows fp
        = some g
      ↔ (npixOf fp ≤ fpNpixMax
          ∧ g = grow fp (ratTrunc (fpGrowKsize * ((max kCols kRows : ℤ) : ℚ))) false
          ∧ extractOk g = true ∧ bits1 g = 0 ∧ bits2 g = 0))
    ∧ (fpNpixMax < npixOf fp →
        processFootprint fpNpixMax npixOf grow extractOk bits1 bits2 fpGrowKsize
          kCols kRows fp = none) := by
  have hite : (if kCols > kRows then kCols else kRows) = max kCols kRows := by
    split_ifs with h <;> omega
  have hmax : fpGrowPix fpGrowKsize kCols kRows
      = ratTrunc (fpGrowKsize * ((max kCols kRows : ℤ) : ℚ)) := by
    unfold fpGrowPix
    rw [hite]
  rw [← hmax]
  constructor
  · constructor
    · intro hsome
      unfold processFootprint at hsome
      dsimp only at hsome
      by_cases hc1 : npixOf fp > fpNpixMax
      · rw [if_pos hc1] at hsome
        exact absurd hsome (by simp)
      · rw [if_neg hc1] at hsome
        by_cases hc2 : extractOk (grow fp (fpGrowPix fpGrowKsize kCols kRows) false) = false
        · rw [if_pos hc2] at hsome
          exact absurd hsome (by simp)
        · rw [if_neg hc2] at hsome
          by_cases hc3 : bits1 (grow fp (fpGrowPix fpGrowKsize kCols kRows) false) > 0
          · rw [if_pos hc3] at hsome
            exact absurd hsome (by simp)
          · rw [if_neg hc3] at hsome
            by_cases hc4 : bits2 (grow fp (fpGrowPix fpGrowKsize kCols kRows) false) > 0
            · rw [if_pos hc4] at hsome
              exact absurd hsome (by simp)
            · rw [if_neg hc4] at hsome
              have hg : g = grow fp (fpGrowPix fpGrowKsize kCols kRows) false :=
                (Option.some_injective _ hsome).symm
              subst hg
              refine ⟨by omega, rfl, ?_, by omega, by omega⟩
              cases hex : extractOk (grow fp (fpGrowPix fpGrowKsize kCols kRows) false)
              · exact absurd hex hc2
              · rfl
    · rintro ⟨hnp, hg, hex, hb1, hb2⟩
      subst hg
      unfold processFootprint
      dsimp only
      rw [if_neg (by omega), if_neg (by rw [hex]; simp), if_neg (by omega),
        if_neg (by omega)]
  · intro hbig
    unfold processFootprint
    rw [if_pos (by omega)]

/-- Witness for C8 at a concrete instance: footprint 2 (2 pixels), ceiling
10, growth 3/2 of a 2×3 kernel grid (margin `int(4.5) = 4`), no masking. -/
theorem C8_footprint_processing_witness :
    (processFootprint 10 npixW growW extractOkW bitsZeroW bitsZeroW (3/2) 2 3 2
        = some 6
      ↔ (npixW 2 ≤ 10
          ∧ 6 = growW 2 (ratTrunc ((3/2) * ((max 2 3 : ℤ) : ℚ))) false
          ∧ extractOkW 6 = true ∧ bitsZeroW 6 = 0 ∧ bitsZeroW 6 = 0))
    ∧ ((10 : ℤ) < npixW 2 →
        processFootprint 10 npixW growW extractOkW bitsZeroW bitsZeroW (3/2) 2 3 2
          = none) :=
  C8_footprint_processing 10 npixW growW extractOkW bitsZeroW bitsZeroW (3/2) 2 3 2 6

/-- Claim C7 (amended): the footprint search repeats while the clean count
is below the required minimum and the threshold is above the floor; each
pass multiplies the threshold by the decay factor and fully restarts
candidate collection (the output list is replaced, never accumulated);
provided the decay factor lies strictly between 0 and 1 and the floor is
positive, the loop terminates in a bounded number of passes; it exits only
with the quota met or the threshold at or below the floor; and the
NoUsableRegion failure is raised exactly when the region list at exit is
empty (in particular a successful return is never empty). -/
theorem C7_search_loop {FP : Type} (detect : ℚ → List FP)
    (fpNpixMax : ℤ) (npixOf : FP → ℤ) (grow : FP → ℤ → Bool → FP)
    (extractOk : FP → Bool) (bits1 bits2 : FP → ℕ) (fpGrowKsize : ℚ) (kCols kRows : ℤ)
    (minCleanFp : ℤ) (t0 tMin scal : ℚ) (fuel : ℕ)
    (h1 : 0 < scal) (h2 : scal < 1) (h3 : 0 < tMin) :
    (∃ fuel2, (searchLoopAux detect
        (processFootprint fpNpixMax npixOf grow extractOk bits1 bits2 fpGrowKsize kCols kRows)
        minCleanFp tMin scal fuel2 t0 0 []).isSome = true)
    ∧ (∀ (t : ℚ) (n : ℤ) (out : List FP) (t2 : ℚ) (n2 : ℤ) (out2 : List FP),
        searchLoopAux detect
          (processFootprint fpNpixMax npixOf grow extractOk bits1 bits2 fpGrowKsize kCols kRows)
          minCleanFp tMin scal fuel t n out = some (t2, n2, out2) →
        ¬ (n2 < minCleanFp ∧ tMin < t2))
    ∧ (∀ (t : ℚ) (n : ℤ) (out : List FP),
        searchLoopAux detect
          (processFootprint fpNpixMax npixOf grow extractOk bits1 bits2 fpGrowKsize kCols kRows)
          minCleanFp tMin scal (fuel + 1) t n out
        = if n < minCleanFp ∧ tMin < t
          then searchLoopAux detect
            (processFootprint fpNpixMax npixOf grow extractOk bits1 bits2 fpGrowKsize
              kCols kRows)
            minCleanFp tMin scal fuel (t * scal)
            ((searchPass detect
              (processFootprint fpNpixMax npixOf grow extractOk bits1 bits2 fpGrowKsize
                kCols kRows) t).length : ℤ)
            (searchPass detect
              (processFootprint fpNpixMax npixOf grow extractOk bits1 bits2 fpGrowKsize
                kCols kRows) t)
          else some (t, n, out))
    ∧ (∀ exit2, searchLoopAux detect
          (processFootprint fpNpixMax npixOf grow extractOk bits1 bits2 fpGrowKsize kCols kRows)
          minCleanFp tMin scal fuel t0 0 [] = some exit2 →
        getCollectionOfFootprints detect fpNpixMax npixOf grow extractOk bits1 bits2
          fpGrowKsize kCols kRows minCleanFp t0 scal tMin fuel
        = some (if exit2.2.2.length = 0 then Except.error noFootprintsMsg
            else Except.ok exit2.2.2))
    ∧ (∀ l, getCollectionOfFootprints detect fpNpixMax npixOf grow extractOk bits1 bits2
          fpGrowKsize kCols kRows minCleanFp t0 scal tMin fuel = some (Except.ok l) →
        l ≠ []) := by
  refine ⟨searchLoopAux_exists_fuel detect _ minCleanFp tMin scal h1 h2 h3 t0 0 [],
    fun t n out t2 n2 out2 h =>
      searchLoopAux_exit detect _ minCleanFp tMin scal fuel t n out t2 n2 out2 h,
    fun t n out => rfl, ?_, ?_⟩
  · intro exit2 haux
    unfold getCollectionOfFootprints
    rw [haux]
    rfl
  · intro l hl
    unfold getCollectionOfFootprints at hl
    cases haux : searchLoopAux detect
        (processFootprint fpNpixMax npixOf grow extractOk bits1 bits2 fpGrowKsize kCols kRows)
        minCleanFp tMin scal fuel t0 0 [] with
    | none =>
      rw [haux] at hl
      exact absurd hl (by simp)
    | some exit2 =>
      rw [haux] at hl
      have hl2 : (if exit2.2.2.length = 0
            then (Except.error noFootprintsMsg : Except String (List FP))
            else Except.ok exit2.2.2) = Except.ok l :=
        Option.some_injective _ hl
      split_ifs at hl2 with hlen
      intro hnil
      exact hlen (by rw [Except.ok.inj hl2, hnil]; rfl)

/-- Witness for C7 at a concrete instance (decay 1/2, floor 1, threshold 2,
quota 1, one clean footprint per pass). -/
theorem C7_search_loop_witness :
    (0 : ℚ) < 1/2 ∧ (1 : ℚ)/2 < 1 ∧ (0 : ℚ) < 1 ∧
    ((∃ fuel2, (searchLoopAux detectW
        (processFootprint 10 npixW growW extractOkW bitsZeroW bitsZeroW 1 1 1)
        1 1 (1/2) fuel2 2 0 []).isSome = true)
      ∧ (∀ (t : ℚ) (n : ℤ) (out : List ℕ) (t2 : ℚ) (n2 : ℤ) (out2 : List ℕ),
          searchLoopAux detectW
            (processFootprint 10 npixW growW extractOkW bitsZeroW bitsZeroW 1 1 1)
            1 1 (1/2) 3 t n out = some (t2, n2, out2) →
          ¬ (n2 < 1 ∧ 1 < t2))
      ∧ (∀ (t : ℚ) (n : ℤ) (out : List ℕ),
          searchLoopAux detectW
            (processFootprint 10 npixW growW extractOkW bitsZeroW bitsZeroW 1 1 1)
            1 1 (1/2) (3 + 1) t n out
          = if n < 1 ∧ 1 < t
            then searchLoopAux detectW
              (processFootprint 10 npixW growW extractOkW bitsZeroW bitsZeroW 1 1 1)
              1 1 (1/2) 3 (t * (1/2))
              ((searchPass detectW
                (processFootprint 10 npixW growW extractOkW bitsZeroW bitsZeroW 1 1 1)
                t).length : ℤ)
              (searchPass detectW
                (processFootprint 10 npixW growW extractOkW bitsZeroW bitsZeroW 1 1 1) t)
            else some (t, n, out))
      ∧ (∀ exit2, searchLoopAux detectW
            (processFootprint 10 npixW growW extractOkW bitsZeroW bitsZeroW 1 1 1)
            1 1 (1/2) 3 2 0 [] = some exit2 →
          getCollectionOfFootprints detectW 10 npixW growW extractOkW bitsZeroW bitsZeroW
            1 1 1 1 2 (1/2) 1 3
          = some (if exit2.2.2.length = 0 then Except.error noFootprintsMsg
              else Except.ok exit2.2.2))
      ∧ (∀ l, getCollectionOfFootprints detectW 10 npixW growW extractOkW bitsZeroW bitsZeroW
            1 1 1 1 2 (1/2) 1 3 = some (Except.ok l) →
          l ≠ [])) :=
  ⟨by norm_num, by norm_num, by norm_num,
    C7_search_loop detectW 10 npixW growW extractOkW bitsZeroW bitsZeroW 1 1 1 1 2 1 (1/2) 3
      (by norm_num) (by norm_num) (by norm_num)⟩

theorem searchLoopAux_diverges {FP : Type} (process : FP → Option FP) :
    ∀ (fuel : ℕ) (t : ℚ), 1 < t →
      searchLoopAux (fun _ => ([] : List FP)) process 1 1 1 fuel t 0 [] = none
  | 0, t => fun _ => rfl
  | fuel + 1, t => by
    intro ht
    unfold searchLoopAux
    rw [if_pos ⟨by norm_num, ht⟩]
    exact searchLoopAux_diverges process fuel (t * 1) (by rw [mul_one]; exact ht)

/-- Counterexample to C7 as stated: with `detThresholdScaling = 1` (a value
the configuration surface does not exclude) the threshold never decreases,
so with a detection oracle that never finds a candidate, quota 1, threshold
2 and floor 1 the while loop never reaches its exit condition — the search
does not terminate, whatever the number of passes allowed.  (The same holds
in IEEE double arithmetic, where `2.0 * 1.0 = 2.0` exactly.) -/
theorem C7_counterexample :
    ¬ ∃ fuel : ℕ, (getCollectionOfFootprints (fun _ => ([] : List ℕ)) 10 npixW growW
        extractOkW bitsZeroW bitsZeroW 1 1 1 1 2 1 1 fuel).isSome = true := by
  rintro ⟨fuel, hf⟩
  unfold getCollectionOfFootprints at hf
  rw [searchLoopAux_diverges
    (processFootprint 10 npixW growW extractOkW bitsZeroW bitsZeroW 1 1 1) fuel 2
    (by norm_num)] at hf
  exact absurd hf (by simp)

/-! ## Difference assembly (claim C9) -/

/-- Claim C9: the Image-template `convolveAndSubtract` produces an image
plane equal to the template convolved with the fitted kernel, plus the
background, minus the science image plane, multiplied by −1 exactly when
`invert` is set; its mask and variance planes are copies of the science
image's planes, unchanged by the inversion. -/
theorem C9_convolve_and_subtract (conv : (ℤ → ℤ → ℚ) → (ℤ → ℤ → ℚ))
    (imageToConvolve : ℤ → ℤ → ℚ) (imageToNotConvolve : MaskedImage)
    (background : ℚ) (invert : Bool) (x y : ℤ) :
    (convolveAndSubtract conv imageToConvolve imageToNotConvolve background invert).img x y
      = (if invert
          then -(conv imageToConvolve x y + background - imageToNotConvolve.img x y)
          else conv imageToConvolve x y + background - imageToNotConvolve.img x y)
    ∧ (convolveAndSubtract conv imageToConvolve imageToNotConvolve background invert).msk
        = imageToNotConvolve.msk
    ∧ (convolveAndSubtract conv imageToConvolve imageToNotConvolve background invert).var
        = imageToNotConvolve.var := by
  refine ⟨?_, rfl, rfl⟩
  by_cases hbg : background ≠ 0
  · cases invert <;> simp [convolveAndSubtract, addSomethingToImage, hbg] <;> ring
  · push_neg at hbg
    subst hbg
    cases invert <;> simp [convolveAndSubtract, addSomethingToImage] <;> ring

end IpDiffim
